import Mathlib

/-!
Shallow embedding of the episode index / metadata cache of
`src/aniworld/common/db.py` (`EpisodeDatabase` over `ThreadSafeSQLite`).

SQLite tables are modelled as lists of typed rows (in insertion order, which
is the order an unordered `SELECT` scans them in), SQLite rowid allocation as
max-of-existing-ids-plus-one, and each Python method as a pure state-passing
function.  Database driver errors are not modelled: queries run on the
idealised store.  `_parse_filename` is kept abstract as a function parameter
(`parse`), since no claim depends on the concrete regex patterns.
-/

/-- Characters removed by `sanitize_path` in `src/aniworld/common/common.py`:
`invalid_chars = r'\/:*?"<>|&'`. -/
def invalidChars : List Char := ['\\', '/', ':', '*', '?', '"', '<', '>', '|', '&']

/-- `sanitize_path` (common.py): delete every invalid character
(`str.translate` with a deletion-only table). -/
def sanitize_path (s : String) : String :=
  ⟨s.data.filter (fun c => !(invalidChars.contains c))⟩

/-- Core of the SQLite `LIKE` matcher: `%` matches any sequence of
characters, `_` matches exactly one character, and any other pattern
character matches ASCII case-insensitively.  The queries in `db.py` pass
their arguments unescaped, so `_`/`%` occurring in titles or language
variants act as wildcards.  Structural recursion on fuel; every step
shrinks `pattern.length + s.length`, so `likeMatch`'s fuel never runs
out. -/
def likeMatchAux : Nat → List Char → List Char → Bool
  | 0, _, _ => false
  | _ + 1, [], s => s.isEmpty
  | fuel + 1, p :: ps, s =>
      if p = '%' then
        likeMatchAux fuel ps s
          || (match s with
              | [] => false
              | _ :: ss => likeMatchAux fuel (p :: ps) ss)
      else if p = '_' then
        match s with
        | [] => false
        | _ :: ss => likeMatchAux fuel ps ss
      else
        match s with
        | [] => false
        | c :: ss => (p.toLower == c.toLower) && likeMatchAux fuel ps ss

/-- `s LIKE pattern` in SQLite (with enough fuel). -/
def likeMatch (pattern s : List Char) : Bool :=
  likeMatchAux (pattern.length + s.length + 1) pattern s

/-- SQLite `language LIKE '%pat%'` as built by `episode_exists`
(`f"%{lang}%"`, unescaped). -/
def likeHas (s pat : String) : Bool :=
  likeMatch ('%' :: (pat.data ++ ['%'])) s.data

/-- `pre` is a prefix of `s` (char-wise). -/
def strStartsWith (s pre : String) : Bool :=
  pre.data.isPrefixOf s.data

/-- SQLite `title LIKE 'pat%'` as built by `episode_exists`
(`f"{sanitized_title}%"`, unescaped). -/
def likeStarts (s pat : String) : Bool :=
  likeMatch (pat.data ++ ['%']) s.data

/-- Collect maximal runs of non-whitespace characters; `acc` holds the
current run reversed. -/
def wsTokens : List Char → List Char → List String
  | [], acc => if acc.isEmpty then [] else [⟨acc.reverse⟩]
  | c :: cs, acc =>
      if c.isWhitespace then
        if acc.isEmpty then wsTokens cs [] else ⟨acc.reverse⟩ :: wsTokens cs []
      else wsTokens cs (c :: acc)

/-- Python `str.split()` with no argument: split on whitespace runs,
discarding empty pieces. -/
def splitWhitespace (s : String) : List String :=
  wsTokens s.data []

/-- Row of the `episode_files` table (schema in `create_tables`). -/
structure EpisodeFileRow where
  id : Nat
  title : String
  season : Int
  episode : Int
  language : String
  file_path : String
  file_name : String
  last_modified : Int
  indexed_at : Int
deriving DecidableEq, Repr

/-- Row of the `scan_history` table. -/
structure ScanHistoryRow where
  id : Nat
  directory : String
  last_scan : Int
deriving DecidableEq, Repr

/-- Row of the `anime_metadata` table. -/
structure AnimeMetadataRow where
  id : Nat
  slug : String
  title : String
  description : Option String
  thumbnail_url : Option String
  last_updated : Int
  ttl : Int
deriving DecidableEq, Repr

/-- Row of the `season_metadata` table. -/
structure SeasonMetadataRow where
  id : Nat
  anime_id : Nat
  season_number : Int
  season_title : String
  episode_count : Option Int
  last_updated : Int
deriving DecidableEq, Repr

/-- Row of the `episode_metadata` table. -/
structure EpisodeMetadataRow where
  id : Nat
  season_id : Nat
  episode_number : Int
  episode_title : Option String
  url : Option String
  last_updated : Int
deriving DecidableEq, Repr

/-- Row of the `language_availability` table. -/
structure LanguageAvailabilityRow where
  id : Nat
  episode_id : Nat
  language : String
  is_available : Bool
  last_checked : Int
deriving DecidableEq, Repr

/-- The whole persistent state of `EpisodeDatabase`, plus the in-memory
`is_indexing` attribute set in `__init__`.  (The `download_stats` table is
out of scope for the claims and omitted.) -/
structure DBState where
  episode_files : List EpisodeFileRow
  scan_history : List ScanHistoryRow
  anime_metadata : List AnimeMetadataRow
  season_metadata : List SeasonMetadataRow
  episode_metadata : List EpisodeMetadataRow
  language_availability : List LanguageAvailabilityRow
  is_indexing : Bool
deriving DecidableEq, Repr

/-- Fresh database right after `__init__`/`create_tables`: all tables empty,
`self.is_indexing = False`. -/
def initState : DBState :=
  { episode_files := []
    scan_history := []
    anime_metadata := []
    season_metadata := []
    episode_metadata := []
    language_availability := []
    is_indexing := false }

/-- The five language variants built at the top of `episode_exists` /
`get_episode_file`.  `language.split()[0]` raises `IndexError` on a string
without any whitespace-separated token, which we model as `none`. -/
def language_variants (language : String) : Option (List String) :=
  match splitWhitespace language with
  | [] => none
  | t :: _ =>
      some [language, language.replace " " ".", language.replace " " "_",
            language.replace " " "-", t]

/-- Title part of the `episode_exists` WHERE clause:
`title = ? OR title LIKE 'st%' OR title LIKE '%st%'` (SQLite `=` on text is
case-sensitive, `LIKE` is ASCII case-insensitive). -/
def rowTitleMatch (r : EpisodeFileRow) (st : String) : Bool :=
  r.title == st || likeStarts r.title st || likeHas r.title st

/-- `EpisodeDatabase.episode_exists`: sanitize the title, build the five
language variants, and test whether any `episode_files` row satisfies the
query.  `none` models the `IndexError` raised by `language.split()[0]`. -/
def episode_exists (σ : DBState) (anime_title : String) (season episode : Int)
    (language : String) : Option Bool :=
  let st := sanitize_path anime_title
  match language_variants language with
  | none => none
  | some variants =>
      some (σ.episode_files.any (fun r =>
        rowTitleMatch r st && r.season == season && r.episode == episode
          && variants.any (fun v => likeHas r.language v)))

/-- C1 (amended): `episode_exists(anime_title, season, episode, language)`
returns true iff some `episode_files` row matches the sanitized title
exactly, or via the `LIKE` patterns `'sanitized%'` / `'%sanitized%'`, has
the given season and episode, and has a language matching the `LIKE`
pattern `'%v%'` for one of the five variants of the input language: the
literal string, spaces replaced by `.`, `_`, `-`, or its first whitespace
token.  The patterns are unescaped, so `_` matches any single character
and `%` any sequence (ASCII case-insensitively) — the matching is not
literal prefix/substring containment. -/
theorem episode_exists_iff (σ : DBState) (anime_title : String)
    (season episode : Int) (language t : String) (rest : List String)
    (h : splitWhitespace language = t :: rest) :
    episode_exists σ anime_title season episode language = some true ↔
      ∃ r ∈ σ.episode_files,
        (r.title = sanitize_path anime_title
            ∨ likeStarts r.title (sanitize_path anime_title) = true
            ∨ likeHas r.title (sanitize_path anime_title) = true)
          ∧ r.season = season ∧ r.episode = episode
          ∧ (likeHas r.language language = true
              ∨ likeHas r.language (language.replace " " ".") = true
              ∨ likeHas r.language (language.replace " " "_") = true
              ∨ likeHas r.language (language.replace " " "-") = true
              ∨ likeHas r.language t = true) := by
  have hv : language_variants language =
      some [language, language.replace " " ".", language.replace " " "_",
            language.replace " " "-", t] := by
    simp [language_variants, h]
  simp only [episode_exists, hv, Option.some.injEq, List.any_eq_true]
  refine exists_congr fun r => and_congr_right fun _ => ?_
  simp only [rowTitleMatch, Bool.and_eq_true, Bool.or_eq_true, beq_iff_eq,
    List.any_eq_true, List.mem_cons, List.not_mem_nil, or_false,
    exists_eq_or_imp, exists_eq_left]
  tauto

/-- Small sample database used by witnesses. -/
def db1 : DBState :=
  { initState with
      episode_files :=
        [{ id := 1, title := "Demon Slayer", season := 1, episode := 5,
           language := "German Dub", file_path := "/v/Demon Slayer - S01E05 (German Dub).mp4",
           file_name := "Demon Slayer - S01E05 (German Dub).mp4",
           last_modified := 100, indexed_at := 100 }] }

/-- Witness for `episode_exists_iff` at a concrete database and language. -/
theorem episode_exists_iff_witness :
    splitWhitespace "German Dub" = "German" :: ["Dub"] ∧
    (episode_exists db1 "Demon Slayer" 1 5 "German Dub" = some true ↔
      ∃ r ∈ db1.episode_files,
        (r.title = sanitize_path "Demon Slayer"
            ∨ likeStarts r.title (sanitize_path "Demon Slayer") = true
            ∨ likeHas r.title (sanitize_path "Demon Slayer") = true)
          ∧ r.season = 1 ∧ r.episode = 5
          ∧ (likeHas r.language "German Dub" = true
              ∨ likeHas r.language (String.replace "German Dub" " " ".") = true
              ∨ likeHas r.language (String.replace "German Dub" " " "_") = true
              ∨ likeHas r.language (String.replace "German Dub" " " "-") = true
              ∨ likeHas r.language "German" = true)) :=
  ⟨by decide,
   episode_exists_iff db1 "Demon Slayer" 1 5 "German Dub" "German" ["Dub"]
     (by decide)⟩

/-- Database whose single row is titled `KxON`. -/
def dbK : DBState :=
  { initState with
      episode_files :=
        [{ id := 1, title := "KxON", season := 1, episode := 1,
           language := "German Dub", file_path := "/v/KxON - S01E01 (German Dub).mp4",
           file_name := "KxON - S01E01 (German Dub).mp4",
           last_modified := 100, indexed_at := 100 }] }

/-- Counterexample to C1 as stated: `episode_exists("K_ON", 1, 1,
"German Dub")` returns true on a database whose only row is titled
`"KxON"` — the unescaped `_` in `title LIKE 'K_ON%'` matches the `x` —
even though that title neither equals the sanitized input, nor starts
with it, nor contains it as a substring (even case-insensitively). -/
theorem episode_exists_wildcard_counterexample :
    episode_exists dbK "K_ON" 1 1 "German Dub" = some true
    ∧ ∀ r ∈ dbK.episode_files,
        ¬(r.title = sanitize_path "K_ON"
          ∨ ((sanitize_path "K_ON").data.map Char.toLower).isPrefixOf
              (r.title.data.map Char.toLower) = true
          ∨ ((sanitize_path "K_ON").data.map Char.toLower)
              <:+: (r.title.data.map Char.toLower)) := by
  constructor
  · decide
  · decide

/-- SQLite rowid allocation for our tables: one more than the largest
existing id (`INTEGER PRIMARY KEY` default behaviour). -/
def freshId (ids : List Nat) : Nat := ids.foldr max 0 + 1

/-- `List.find?` skips a prefix in which nothing matches. -/
theorem find_append_of_none {α} (p : α → Bool) (l1 l2 : List α)
    (h : l1.find? p = none) : (l1 ++ l2).find? p = l2.find? p := by
  induction l1 with
  | nil => simp
  | cons a l ih =>
      rcases hpa : p a with hf | ht
      · rw [List.cons_append, List.find?_cons_of_neg _ (by simp [hpa])]
        rw [List.find?_cons_of_neg _ (by simp [hpa])] at h
        exact ih h
      · rw [List.find?_cons_of_pos _ hpa] at h
        exact absurd h (by simp)

/-- `List.find?` commutes with a map that does not change whether the
predicate holds. -/
theorem find_map_congr {α} (p : α → Bool) (f : α → α) (l : List α)
    (hf : ∀ a, p (f a) = p a) : (l.map f).find? p = (l.find? p).map f := by
  induction l with
  | nil => simp
  | cons a l ih =>
      rcases hpa : p a with hpf | hpt
      · rw [List.map_cons, List.find?_cons_of_neg _ (by simp [hf, hpa]),
          List.find?_cons_of_neg _ (by simp [hpa]), ih]
      · rw [List.map_cons, List.find?_cons_of_pos _ (by simp [hf, hpa]),
          List.find?_cons_of_pos _ hpa, Option.map_some']

/-- `EpisodeDatabase.save_anime_metadata`: upsert keyed by `slug`.  If a row
with the slug exists, `UPDATE ... WHERE id = existing[0]` rewrites its
non-slug fields; otherwise a fresh row is inserted.  Returns the row id. -/
def save_anime_metadata (σ : DBState) (slug title : String)
    (description thumbnail_url : Option String) (ttl now : Int) :
    DBState × Nat :=
  match σ.anime_metadata.find? (fun r => r.slug == slug) with
  | some row =>
      ({ σ with anime_metadata := σ.anime_metadata.map (fun r =>
          if r.id == row.id then
            { r with title := title, description := description,
                     thumbnail_url := thumbnail_url, last_updated := now,
                     ttl := ttl }
          else r) }, row.id)
  | none =>
      let i := freshId (σ.anime_metadata.map (fun r => r.id))
      ({ σ with anime_metadata := σ.anime_metadata ++
          [{ id := i, slug := slug, title := title, description := description,
             thumbnail_url := thumbnail_url, last_updated := now,
             ttl := ttl }] }, i)

/-- `EpisodeDatabase.get_anime_metadata`: look the slug up and treat the row
as a miss when `now - last_updated > ttl`. -/
def get_anime_metadata (σ : DBState) (slug : String) (now : Int) :
    Option AnimeMetadataRow :=
  match σ.anime_metadata.find? (fun r => r.slug == slug) with
  | none => none
  | some row => if now - row.last_updated > row.ttl then none else some row

/-- `EpisodeDatabase.invalidate_cache_for_anime`: set the row's
`last_updated` to 0 (via its id); `False` when the slug is unknown. -/
def invalidate_cache_for_anime (σ : DBState) (slug : String) :
    DBState × Bool :=
  match σ.anime_metadata.find? (fun r => r.slug == slug) with
  | none => (σ, false)
  | some row =>
      ({ σ with anime_metadata := σ.anime_metadata.map (fun r =>
          if r.id == row.id then { r with last_updated := 0 } else r) },
       true)

/-- After `save_anime_metadata`, the slug lookup finds a row carrying the
saved title, timestamp and ttl. -/
theorem save_anime_find (σ : DBState) (slug title : String)
    (description thumbnail_url : Option String) (ttl now : Int) :
    ∃ row,
      ((save_anime_metadata σ slug title description thumbnail_url ttl
          now).1).anime_metadata.find? (fun r => r.slug == slug) = some row
      ∧ row.slug = slug ∧ row.title = title ∧ row.last_updated = now
      ∧ row.ttl = ttl := by
  rcases hfind : σ.anime_metadata.find? (fun r => r.slug == slug) with _ | row
  · refine ⟨AnimeMetadataRow.mk (freshId (σ.anime_metadata.map (fun r => r.id)))
        slug title description thumbnail_url now ttl, ?_, rfl, rfl, rfl, rfl⟩
    simp only [save_anime_metadata, hfind]
    rw [find_append_of_none _ _ _ hfind]
    simp
  · have hslug : row.slug = slug := by
      have := List.find?_some hfind
      simpa using this
    refine ⟨AnimeMetadataRow.mk row.id row.slug title description thumbnail_url
        now ttl, ?_, hslug, rfl, rfl, rfl⟩
    simp only [save_anime_metadata, hfind]
    rw [find_map_congr _ _ _ (fun a => by rcases h : a.id == row.id with _ | _ <;> simp [h]),
      hfind, Option.map_some']
    simp

/-- C4: TTL round-trip.  After `save_anime_metadata(slug, title, ..., ttl)`
at time `tsave`, `get_anime_metadata(slug)` at time `tnow` returns a record
with the saved slug and title whenever `tnow - tsave ≤ ttl`, and `none`
whenever `tnow - tsave > ttl`; on a state with no row for the slug it
returns `none` — stale and absent are indistinguishable. -/
theorem anime_metadata_roundtrip (σ : DBState) (slug title : String)
    (description thumbnail_url : Option String) (ttl tsave tnow : Int) :
    (tnow - tsave ≤ ttl →
      ∃ rec, get_anime_metadata
          ((save_anime_metadata σ slug title description thumbnail_url ttl
            tsave).1) slug tnow = some rec
        ∧ rec.slug = slug ∧ rec.title = title)
    ∧ (tnow - tsave > ttl →
      get_anime_metadata
          ((save_anime_metadata σ slug title description thumbnail_url ttl
            tsave).1) slug tnow = none)
    ∧ (σ.anime_metadata.find? (fun r => r.slug == slug) = none →
      get_anime_metadata σ slug tnow = none) := by
  obtain ⟨row, hfind, hs, ht, hlu, httl⟩ :=
    save_anime_find σ slug title description thumbnail_url ttl tsave
  refine ⟨fun h => ⟨row, ?_, hs, ht⟩, fun h => ?_, fun h => ?_⟩
  · simp only [get_anime_metadata, hfind, hlu, httl]
    rw [if_neg (by omega)]
  · simp only [get_anime_metadata, hfind, hlu, httl]
    rw [if_pos (by omega)]
  · simp only [get_anime_metadata, h]

/-- Witness for `anime_metadata_roundtrip`: fresh read succeeds, stale read
misses. -/
theorem anime_metadata_roundtrip_witness :
    (∃ rec, get_anime_metadata
        ((save_anime_metadata initState "ds" "Demon Slayer" none none 86400
          10).1) "ds" 20 = some rec
      ∧ rec.slug = "ds" ∧ rec.title = "Demon Slayer")
    ∧ get_anime_metadata
        ((save_anime_metadata initState "ds" "Demon Slayer" none none 86400
          10).1) "ds" 100000 = none :=
  ⟨(anime_metadata_roundtrip initState "ds" "Demon Slayer" none none
      86400 10 20).1 (by decide),
   (anime_metadata_roundtrip initState "ds" "Demon Slayer" none none
      86400 10 100000).2.1 (by decide)⟩

/-- C8: `invalidate_cache_for_anime(slug)` zeroes the found row's
`last_updated` without deleting any row, and a following
`get_anime_metadata(slug)` at any time `now > ttl` misses. -/
theorem invalidate_then_get (σ : DBState) (slug : String) (now : Int)
    (row : AnimeMetadataRow)
    (hfind : σ.anime_metadata.find? (fun r => r.slug == slug) = some row)
    (hnow : now > row.ttl) :
    ((invalidate_cache_for_anime σ slug).1).anime_metadata.find?
        (fun r => r.slug == slug)
      = some (AnimeMetadataRow.mk row.id row.slug row.title row.description
          row.thumbnail_url 0 row.ttl)
    ∧ ((invalidate_cache_for_anime σ slug).1).anime_metadata.length
        = σ.anime_metadata.length
    ∧ get_anime_metadata ((invalidate_cache_for_anime σ slug).1) slug now
        = none := by
  have hmap : ((invalidate_cache_for_anime σ slug).1).anime_metadata.find?
      (fun r => r.slug == slug)
      = some (AnimeMetadataRow.mk row.id row.slug row.title row.description
          row.thumbnail_url 0 row.ttl) := by
    simp only [invalidate_cache_for_anime, hfind]
    rw [find_map_congr _ _ _ (fun a => by rcases h : a.id == row.id with _ | _ <;> simp [h]),
      hfind, Option.map_some']
    simp
  refine ⟨hmap, ?_, ?_⟩
  · simp only [invalidate_cache_for_anime, hfind, List.length_map]
  · simp only [get_anime_metadata, hmap]
    rw [if_pos (by simpa using hnow)]

/-- Sample anime row for the C8 witness. -/
def rowA : AnimeMetadataRow :=
  { id := 1, slug := "ds", title := "Demon Slayer", description := none,
    thumbnail_url := none, last_updated := 100, ttl := 86400 }

/-- Sample database holding `rowA`. -/
def db2 : DBState := { initState with anime_metadata := [rowA] }

/-- Witness for `invalidate_then_get` at a concrete database. -/
theorem invalidate_then_get_witness :
    ((invalidate_cache_for_anime db2 "ds").1).anime_metadata.find?
        (fun r => r.slug == "ds")
      = some (AnimeMetadataRow.mk rowA.id rowA.slug rowA.title
          rowA.description rowA.thumbnail_url 0 rowA.ttl)
    ∧ ((invalidate_cache_for_anime db2 "ds").1).anime_metadata.length
        = db2.anime_metadata.length
    ∧ get_anime_metadata ((invalidate_cache_for_anime db2 "ds").1) "ds" 100000
        = none :=
  invalidate_then_get db2 "ds" 100000 rowA (by decide) (by decide)

/-- `EpisodeDatabase.save_season_metadata`: upsert keyed by
`(anime_id, season_number)`. -/
def save_season_metadata (σ : DBState) (aid : Nat) (sn : Int)
    (stitle : String) (ecount : Option Int) (now : Int) : DBState × Nat :=
  match σ.season_metadata.find?
      (fun r => r.anime_id == aid && r.season_number == sn) with
  | some row =>
      ({ σ with season_metadata := σ.season_metadata.map (fun r =>
          if r.id == row.id then
            { r with season_title := stitle, episode_count := ecount,
                     last_updated := now }
          else r) }, row.id)
  | none =>
      let i := freshId (σ.season_metadata.map (fun r => r.id))
      ({ σ with season_metadata := σ.season_metadata ++
          [SeasonMetadataRow.mk i aid sn stitle ecount now] }, i)

/-- `EpisodeDatabase.save_episode_metadata`: upsert keyed by
`(season_id, episode_number)`. -/
def save_episode_metadata (σ : DBState) (sid : Nat) (en : Int)
    (etitle url : Option String) (now : Int) : DBState × Nat :=
  match σ.episode_metadata.find?
      (fun r => r.season_id == sid && r.episode_number == en) with
  | some row =>
      ({ σ with episode_metadata := σ.episode_metadata.map (fun r =>
          if r.id == row.id then
            { r with episode_title := etitle, url := url, last_updated := now }
          else r) }, row.id)
  | none =>
      let i := freshId (σ.episode_metadata.map (fun r => r.id))
      ({ σ with episode_metadata := σ.episode_metadata ++
          [EpisodeMetadataRow.mk i sid en etitle url now] }, i)

/-- `EpisodeDatabase.save_language_availability`: upsert keyed by
`(episode_id, language)`. -/
def save_language_availability (σ : DBState) (eid : Nat) (language : String)
    (avail : Bool) (now : Int) : DBState × Nat :=
  match σ.language_availability.find?
      (fun r => r.episode_id == eid && r.language == language) with
  | some row =>
      ({ σ with language_availability := σ.language_availability.map (fun r =>
          if r.id == row.id then
            { r with is_available := avail, last_checked := now }
          else r) }, row.id)
  | none =>
      let i := freshId (σ.language_availability.map (fun r => r.id))
      ({ σ with language_availability := σ.language_availability ++
          [LanguageAvailabilityRow.mk i eid language avail now] }, i)

/-- Ascending insertion into a list sorted by `key` (models `ORDER BY`). -/
def insertByKey {α} (key : α → Int) (r : α) : List α → List α
  | [] => [r]
  | x :: xs =>
      if key r ≤ key x then r :: x :: xs else x :: insertByKey key r xs

/-- Sort by an integer key (models SQL `ORDER BY key`). -/
def sortByKey {α} (key : α → Int) (l : List α) : List α :=
  l.foldr (insertByKey key) []

/-- `EpisodeDatabase.get_seasons_for_anime`: all seasons of the anime,
ordered by `season_number`. -/
def get_seasons_for_anime (σ : DBState) (aid : Nat) :
    List SeasonMetadataRow :=
  sortByKey (fun r => r.season_number)
    (σ.season_metadata.filter (fun r => r.anime_id == aid))

/-- `EpisodeDatabase.get_episodes_for_season`: all episodes of the season,
ordered by `episode_number`. -/
def get_episodes_for_season (σ : DBState) (sid : Nat) :
    List EpisodeMetadataRow :=
  sortByKey (fun r => r.episode_number)
    (σ.episode_metadata.filter (fun r => r.season_id == sid))

/-- The season-resolution loop of `get_available_languages` /
`is_language_available`: first listed season with the number, its id. -/
def seasonIdLookup (σ : DBState) (aid : Nat) (sn : Int) : Option Nat :=
  ((get_seasons_for_anime σ aid).find? (fun s => s.season_number == sn)).map
    (fun s => s.id)

/-- The episode-resolution loop: first listed episode with the number. -/
def episodeIdLookup (σ : DBState) (sid : Nat) (en : Int) : Option Nat :=
  ((get_episodes_for_season σ sid).find? (fun e => e.episode_number == en)).map
    (fun e => e.id)

/-- Python dict assignment `d[k] = v`: overwrite in place or append. -/
def dictInsert (d : List (String × Bool)) (k : String) (v : Bool) :
    List (String × Bool) :=
  if d.any (fun kv => kv.1 == k) then
    d.map (fun kv => if kv.1 == k then (k, v) else kv)
  else d ++ [(k, v)]

/-- `EpisodeDatabase.get_language_availability` with `language=None`: the
dict of languages whose entry is younger than `max_age`. -/
def get_language_availability_all (σ : DBState) (eid : Nat)
    (maxAge now : Int) : List (String × Bool) :=
  (σ.language_availability.filter (fun r => r.episode_id == eid)).foldl
    (fun d r =>
      if now - maxAge ≤ r.last_checked then
        dictInsert d r.language r.is_available
      else d) []

/-- `EpisodeDatabase.get_available_languages`: walk the
anime→season→episode chain, then keep the available languages.  The
`if id == 0` arms model Python's falsiness test `if not season_id` /
`if not episode_id`. -/
def get_available_languages (σ : DBState) (slug : String) (sn en : Int)
    (maxAge now : Int) : List String :=
  match get_anime_metadata σ slug now with
  | none => []
  | some a =>
      match seasonIdLookup σ a.id sn with
      | none => []
      | some sid =>
          if sid == 0 then [] else
          match episodeIdLookup σ sid en with
          | none => []
          | some eid =>
              if eid == 0 then [] else
              ((get_language_availability_all σ eid maxAge now).filter
                (fun kv => kv.2)).map (fun kv => kv.1)

/-- Inserting a fresh key into the dict is an append. -/
theorem dictInsert_of_fresh (acc : List (String × Bool)) (k : String)
    (v : Bool) (h : ∀ kv ∈ acc, kv.1 ≠ k) :
    dictInsert acc k v = acc ++ [(k, v)] := by
  have : acc.any (fun kv => kv.1 == k) = false := by
    simp only [List.any_eq_false]
    intro kv hkv
    simpa using h kv hkv
  simp [dictInsert, this]

/-- Folding dict assignments over rows with pairwise distinct languages just
collects the surviving rows in order. -/
theorem foldl_dictInsert_eq (maxAge now : Int)
    (rows : List LanguageAvailabilityRow) (acc : List (String × Bool))
    (hnd : (rows.map (fun r => r.language)).Nodup)
    (hfresh : ∀ kv ∈ acc, ∀ r ∈ rows, kv.1 ≠ r.language) :
    rows.foldl
        (fun d r => if now - maxAge ≤ r.last_checked then
          dictInsert d r.language r.is_available else d)
        acc
      = acc ++ rows.filterMap
          (fun r => if now - maxAge ≤ r.last_checked then
            some (r.language, r.is_available) else none) := by
  induction rows generalizing acc with
  | nil => simp
  | cons r rs ih =>
      have hmem : r.language ∉ rs.map (fun x => x.language) :=
        (List.nodup_cons.mp (by simpa using hnd)).1
      have hnd' : (rs.map (fun x => x.language)).Nodup :=
        (List.nodup_cons.mp (by simpa using hnd)).2
      have hfresh' : ∀ kv ∈ acc, ∀ x ∈ rs, kv.1 ≠ x.language :=
        fun kv hkv x hx => hfresh kv hkv x (List.mem_cons_of_mem r hx)
      rw [List.foldl_cons, List.filterMap_cons]
      by_cases hc : now - maxAge ≤ r.last_checked
      · rw [if_pos hc, if_pos hc]
        have hacc : ∀ kv ∈ acc, kv.1 ≠ r.language := fun kv hkv =>
          hfresh kv hkv r (List.mem_cons_self r rs)
        rw [dictInsert_of_fresh acc r.language r.is_available hacc]
        rw [ih (acc ++ [(r.language, r.is_available)]) hnd' ?hf]
        · simp
        case hf =>
          intro kv hkv x hx
          rcases List.mem_append.mp hkv with h1 | h1
          · exact hfresh' kv h1 x hx
          · have hkv2 : kv = (r.language, r.is_available) := by simpa using h1
            subst hkv2
            intro hcontra
            have heq : r.language = x.language := hcontra
            exact hmem (by
              rw [heq]
              exact List.mem_map_of_mem (fun x => x.language) hx)
      · rw [if_neg hc, if_neg hc]
        exact ih acc hnd' hfresh'

/-- Membership in the final availability list, assuming the
`UNIQUE(episode_id, language)` constraint of the table. -/
theorem mem_languages_iff (σ : DBState) (eid : Nat) (maxAge now : Int)
    (lang : String)
    (hU : ((σ.language_availability.filter (fun r => r.episode_id == eid)).map
        (fun r => r.language)).Nodup) :
    lang ∈ ((get_language_availability_all σ eid maxAge now).filter
        (fun kv => kv.2)).map (fun kv => kv.1)
      ↔ ∃ r ∈ σ.language_availability, r.episode_id = eid
          ∧ r.language = lang ∧ r.is_available = true
          ∧ now - r.last_checked ≤ maxAge := by
  unfold get_language_availability_all
  rw [foldl_dictInsert_eq maxAge now _ [] hU (by simp)]
  constructor
  · intro hm
    obtain ⟨kv, hkv, hlang⟩ := List.mem_map.mp hm
    obtain ⟨hkvmem, hkv2⟩ := List.mem_filter.mp hkv
    rw [List.nil_append] at hkvmem
    obtain ⟨r, hrmem, hf⟩ := List.mem_filterMap.mp hkvmem
    obtain ⟨hrtab, hreid⟩ := List.mem_filter.mp hrmem
    by_cases hc : now - maxAge ≤ r.last_checked
    · rw [if_pos hc] at hf
      have hpair : (r.language, r.is_available) = kv := by simpa using hf
      refine ⟨r, hrtab, by simpa using hreid, ?_, ?_, by omega⟩
      · rw [← hlang, ← hpair]
      · have h2 : kv.2 = true := by simpa using hkv2
        rw [← hpair] at h2
        simpa using h2
    · rw [if_neg hc] at hf
      exact absurd hf (by simp)
  · rintro ⟨r, hr, heid, hlang, hav, hage⟩
    apply List.mem_map.mpr
    refine ⟨(r.language, r.is_available),
      List.mem_filter.mpr ⟨?_, by simpa using hav⟩, by simpa using hlang⟩
    rw [List.nil_append]
    apply List.mem_filterMap.mpr
    refine ⟨r, List.mem_filter.mpr ⟨hr, by simp [heid]⟩, ?_⟩
    rw [if_pos (by omega)]

/-- C7: `get_available_languages(slug, season, episode, max_age)` returns []
at every broken link of the anime→season→episode chain (anime not cached or
stale, season not found, episode not found), and on a fully resolved chain
returns exactly the languages whose cached flag is true and whose
`last_checked` satisfies `now - last_checked ≤ max_age`. -/
theorem get_available_languages_spec (σ : DBState) (slug : String)
    (sn en maxAge now : Int) :
    (get_anime_metadata σ slug now = none →
      get_available_languages σ slug sn en maxAge now = [])
    ∧ (∀ a, get_anime_metadata σ slug now = some a →
        seasonIdLookup σ a.id sn = none →
        get_available_languages σ slug sn en maxAge now = [])
    ∧ (∀ a sid, get_anime_metadata σ slug now = some a →
        seasonIdLookup σ a.id sn = some sid →
        episodeIdLookup σ sid en = none →
        get_available_languages σ slug sn en maxAge now = [])
    ∧ (∀ a sid eid, get_anime_metadata σ slug now = some a →
        seasonIdLookup σ a.id sn = some sid → sid ≠ 0 →
        episodeIdLookup σ sid en = some eid → eid ≠ 0 →
        ((σ.language_availability.filter (fun r => r.episode_id == eid)).map
          (fun r => r.language)).Nodup →
        ∀ lang, lang ∈ get_available_languages σ slug sn en maxAge now ↔
          ∃ r ∈ σ.language_availability, r.episode_id = eid
            ∧ r.language = lang ∧ r.is_available = true
            ∧ now - r.last_checked ≤ maxAge) := by
  refine ⟨fun h => by simp [get_available_languages, h],
    fun a ha hs => by simp [get_available_languages, ha, hs],
    fun a sid ha hs he => ?_,
    fun a sid eid ha hs hs0 he he0 hU lang => ?_⟩
  · by_cases h0 : sid == 0 <;>
      simp [get_available_languages, ha, hs, h0, he]
  · simp only [get_available_languages, ha, hs, he]
    rw [if_neg (by simp [hs0]), if_neg (by simp [he0])]
    exact mem_languages_iff σ eid maxAge now lang hU

/-- Sample database with a full anime→season→episode→language chain. -/
def db3 : DBState :=
  { initState with
      anime_metadata := [rowA]
      season_metadata :=
        [{ id := 1, anime_id := 1, season_number := 1,
           season_title := "Staffel 1", episode_count := some 12,
           last_updated := 100 }]
      episode_metadata :=
        [{ id := 1, season_id := 1, episode_number := 1,
           episode_title := none, url := none, last_updated := 100 }]
      language_availability :=
        [{ id := 1, episode_id := 1, language := "German Dub",
           is_available := true, last_checked := 100 },
         { id := 2, episode_id := 1, language := "English Sub",
           is_available := false, last_checked := 100 }] }

/-- Witness for `get_available_languages_spec` on the resolved chain. -/
theorem get_available_languages_spec_witness :
    "German Dub" ∈ get_available_languages db3 "ds" 1 1 86400 150 ↔
      ∃ r ∈ db3.language_availability, r.episode_id = 1
        ∧ r.language = "German Dub" ∧ r.is_available = true
        ∧ 150 - r.last_checked ≤ 86400 :=
  ((get_available_languages_spec db3 "ds" 1 1 86400 150).2.2.2 rowA 1 1
    (by decide) (by decide) (by decide) (by decide) (by decide) (by decide))
    "German Dub"

/-- Result of `_parse_filename`: (title, season, episode, language). -/
structure ParsedInfo where
  title : String
  season : Int
  episode : Int
  language : String
deriving DecidableEq, Repr

/-- Abstract filesystem observation: regular files with mtimes, plus the
existing directories.  `os.walk(d)` yields exactly the files whose full path
extends `d`; those paths are produced by `os.path.join(root, file)` with
`root` extending `d`, so they carry the scanned directory as a string
prefix — the same prefix the `LIKE 'd%'` snapshot query uses. -/
structure FS where
  files : List (String × Int)
  dirs : List String
deriving DecidableEq, Repr

/-- One past the index of the last `'/'` in the list, 0 when there is
none (`p.rfind('/') + 1` in Python). -/
def rfindSlashSucc : List Char → Nat
  | [] => 0
  | c :: cs =>
      let r := rfindSlashSucc cs
      if r = 0 then (if c = '/' then 1 else 0) else r + 1

/-- `posixpath.basename`: everything after the last slash. -/
def baseName (p : String) : String :=
  ⟨p.data.drop (rfindSlashSucc p.data)⟩

/-- Fresh rowid for `episode_files`. -/
def freshEFId (l : List EpisodeFileRow) : Nat :=
  freshId (l.map (fun r => r.id))

/-- The `INSERT INTO episode_files ...` of `scan_directory`. -/
def insertEF (σ : DBState) (info : ParsedInfo) (path fname : String)
    (mtime now : Int) : DBState :=
  { σ with episode_files := σ.episode_files ++
      [EpisodeFileRow.mk (freshEFId σ.episode_files) info.title info.season
        info.episode info.language path fname mtime now] }

/-- `DELETE FROM episode_files WHERE id = ?`. -/
def deleteEFById (σ : DBState) (i : Nat) : DBState :=
  { σ with episode_files := σ.episode_files.filter (fun r => r.id != i) }

/-- The per-file body of the `scan_directory` walk loop: skip unchanged
files (`file_mtime <= db_mtime`), delete-and-reparse changed ones, parse and
insert new ones; unparsable files are skipped. -/
def processFile (parse : String → String → Option ParsedInfo)
    (existing : String → Option (Nat × Int)) (now : Int)
    (st : DBState × Nat) (entry : String × Int) : DBState × Nat :=
  match existing entry.1 with
  | some im =>
      if entry.2 ≤ im.2 then st
      else
        match parse (baseName entry.1) entry.1 with
        | some info =>
            (insertEF (deleteEFById st.1 im.1) info entry.1
              (baseName entry.1) entry.2 now, st.2 + 1)
        | none => (deleteEFById st.1 im.1, st.2)
  | none =>
      match parse (baseName entry.1) entry.1 with
      | some info =>
          (insertEF st.1 info entry.1 (baseName entry.1) entry.2 now,
           st.2 + 1)
      | none => st

/-- The `SELECT id, file_path, last_modified ... WHERE file_path LIKE ?`
snapshot taken before the walk. -/
def dirSnapshot (σ : DBState) (dir : String) : List EpisodeFileRow :=
  σ.episode_files.filter (fun r => strStartsWith r.file_path dir)

/-- The `existing_files` dict built from the snapshot. -/
def existingLookup (snapshot : List EpisodeFileRow) (p : String) :
    Option (Nat × Int) :=
  (snapshot.find? (fun r => r.file_path == p)).map
    (fun r => (r.id, r.last_modified))

/-- One step of the post-walk cleanup loop: delete the row when its file no
longer exists on disk (`os.path.exists`). -/
def cleanupStep (fs : FS) (σ2 : DBState) (p : String) : DBState :=
  if fs.files.any (fun f => f.1 == p) then σ2
  else { σ2 with episode_files :=
      σ2.episode_files.filter (fun r => r.file_path != p) }

/-- The post-walk loop deleting rows whose file vanished from disk. -/
def cleanupDeleted (fs : FS) (snapshotPaths : List String) (σ : DBState) :
    DBState :=
  snapshotPaths.foldl (cleanupStep fs) σ

/-- `INSERT OR REPLACE INTO scan_history (directory, last_scan)` — the table
has no uniqueness constraint on `directory`, so this is a plain insert. -/
def addScanRecord (σ : DBState) (dir : String) (now : Int) : DBState :=
  { σ with scan_history := σ.scan_history ++
      [ScanHistoryRow.mk (freshId (σ.scan_history.map (fun r => r.id))) dir
        now] }

/-- The skip test at the top of `scan_directory`: unless `force_rescan`,
fetch the first `scan_history` row for the directory and skip when it was
scanned less than 3600 seconds ago. -/
def skipCheck (σ : DBState) (dir : String) (force : Bool) (now : Int) :
    Bool :=
  if force then false
  else
    match σ.scan_history.find? (fun r => r.directory == dir) with
    | some r => decide (now - r.last_scan < 3600)
    | none => false

/-- The walk-and-index core of `scan_directory`, run when neither early
return fires. -/
def scanBody (parse : String → String → Option ParsedInfo) (fs : FS)
    (σ : DBState) (dir : String) (now : Int) : DBState × Nat :=
  let snapshot := dirSnapshot σ dir
  let walked := fs.files.filter (fun f => strStartsWith f.1 dir)
  let res := walked.foldl (processFile parse (existingLookup snapshot) now)
    (σ, 0)
  let σ2 := cleanupDeleted fs (snapshot.map (fun r => r.file_path)) res.1
  (addScanRecord σ2 dir now, res.2)

/-- `EpisodeDatabase.scan_directory(directory, force_rescan)`: returns the
new state and the count of newly inserted rows.  Returns 0 when the
directory does not exist, or when it was scanned less than 3600 seconds ago
and `force_rescan` is false. -/
def scan_directory (parse : String → String → Option ParsedInfo) (fs : FS)
    (σ : DBState) (dir : String) (force : Bool) (now : Int) :
    DBState × Nat :=
  if !(fs.dirs.contains dir) then (σ, 0)
  else if skipCheck σ dir force now then (σ, 0)
  else scanBody parse fs σ dir now

/-- `processFile` touches only `episode_files` and the counter. -/
theorem processFile_untouched (parse : String → String → Option ParsedInfo)
    (ex : String → Option (Nat × Int)) (now : Int) (st : DBState × Nat)
    (e : String × Int) :
    ((processFile parse ex now st e).1).scan_history = st.1.scan_history
    ∧ ((processFile parse ex now st e).1).anime_metadata
        = st.1.anime_metadata
    ∧ ((processFile parse ex now st e).1).season_metadata
        = st.1.season_metadata
    ∧ ((processFile parse ex now st e).1).episode_metadata
        = st.1.episode_metadata
    ∧ ((processFile parse ex now st e).1).language_availability
        = st.1.language_availability
    ∧ ((processFile parse ex now st e).1).is_indexing = st.1.is_indexing := by
  unfold processFile
  rcases hex : ex e.1 with _ | im
  · rcases hp : parse (baseName e.1) e.1 with _ | info <;>
      simp [insertEF]
  · by_cases hm : e.2 ≤ im.2
    · simp [hm]
    · rcases hp : parse (baseName e.1) e.1 with _ | info <;>
        simp [hm, insertEF, deleteEFById]

/-- The whole walk fold touches only `episode_files` and the counter. -/
theorem foldl_processFile_untouched
    (parse : String → String → Option ParsedInfo)
    (ex : String → Option (Nat × Int)) (now : Int)
    (l : List (String × Int)) (st : DBState × Nat) :
    ((l.foldl (processFile parse ex now) st).1).scan_history
        = st.1.scan_history
    ∧ ((l.foldl (processFile parse ex now) st).1).anime_metadata
        = st.1.anime_metadata
    ∧ ((l.foldl (processFile parse ex now) st).1).season_metadata
        = st.1.season_metadata
    ∧ ((l.foldl (processFile parse ex now) st).1).episode_metadata
        = st.1.episode_metadata
    ∧ ((l.foldl (processFile parse ex now) st).1).language_availability
        = st.1.language_availability
    ∧ ((l.foldl (processFile parse ex now) st).1).is_indexing
        = st.1.is_indexing := by
  induction l generalizing st with
  | nil => exact ⟨rfl, rfl, rfl, rfl, rfl, rfl⟩
  | cons e l ih =>
      rw [List.foldl_cons]
      obtain ⟨h1, h2, h3, h4, h5, h6⟩ :=
        processFile_untouched parse ex now st e
      obtain ⟨g1, g2, g3, g4, g5, g6⟩ := ih (processFile parse ex now st e)
      exact ⟨g1.trans h1, g2.trans h2, g3.trans h3, g4.trans h4,
        g5.trans h5, g6.trans h6⟩

/-- The cleanup loop touches only `episode_files`. -/
theorem cleanupDeleted_untouched (fs : FS) (ps : List String) (σ : DBState) :
    (cleanupDeleted fs ps σ).scan_history = σ.scan_history
    ∧ (cleanupDeleted fs ps σ).anime_metadata = σ.anime_metadata
    ∧ (cleanupDeleted fs ps σ).season_metadata = σ.season_metadata
    ∧ (cleanupDeleted fs ps σ).episode_metadata = σ.episode_metadata
    ∧ (cleanupDeleted fs ps σ).language_availability
        = σ.language_availability
    ∧ (cleanupDeleted fs ps σ).is_indexing = σ.is_indexing := by
  induction ps generalizing σ with
  | nil => exact ⟨rfl, rfl, rfl, rfl, rfl, rfl⟩
  | cons p ps ih =>
      have hstep : (cleanupStep fs σ p).scan_history = σ.scan_history
          ∧ (cleanupStep fs σ p).anime_metadata = σ.anime_metadata
          ∧ (cleanupStep fs σ p).season_metadata = σ.season_metadata
          ∧ (cleanupStep fs σ p).episode_metadata = σ.episode_metadata
          ∧ (cleanupStep fs σ p).language_availability
              = σ.language_availability
          ∧ (cleanupStep fs σ p).is_indexing = σ.is_indexing := by
        unfold cleanupStep
        by_cases hc : fs.files.any (fun f => f.1 == p) = true <;>
          simp [hc]
      obtain ⟨h1, h2, h3, h4, h5, h6⟩ := hstep
      obtain ⟨g1, g2, g3, g4, g5, g6⟩ := ih (cleanupStep fs σ p)
      exact ⟨g1.trans h1, g2.trans h2, g3.trans h3, g4.trans h4,
        g5.trans h5, g6.trans h6⟩

/-- `scan_directory` on an existing directory with no skip runs the body. -/
theorem scan_directory_run (parse : String → String → Option ParsedInfo)
    (fs : FS) (σ : DBState) (dir : String) (force : Bool) (now : Int)
    (hdir : fs.dirs.contains dir = true)
    (hns : skipCheck σ dir force now = false) :
    scan_directory parse fs σ dir force now = scanBody parse fs σ dir now := by
  unfold scan_directory
  rw [if_neg (by rw [hdir]; simp), if_neg (by simp [hns])]

/-- `scan_directory` with a firing skip window returns 0 and leaves the
state untouched. -/
theorem scan_directory_skip (parse : String → String → Option ParsedInfo)
    (fs : FS) (σ : DBState) (dir : String) (force : Bool) (now : Int)
    (hdir : fs.dirs.contains dir = true)
    (hs : skipCheck σ dir force now = true) :
    scan_directory parse fs σ dir force now = (σ, 0) := by
  unfold scan_directory
  rw [if_neg (by rw [hdir]; simp), if_pos hs]

/-- A completed scan body appends exactly one scan record for the
directory, timestamped `now`. -/
theorem scanBody_scan_history (parse : String → String → Option ParsedInfo)
    (fs : FS) (σ : DBState) (dir : String) (now : Int) :
    ((scanBody parse fs σ dir now).1).scan_history
      = σ.scan_history
        ++ [ScanHistoryRow.mk (freshId (σ.scan_history.map (fun r => r.id)))
              dir now] := by
  simp only [scanBody, addScanRecord]
  obtain ⟨h1, _, _, _, _, _⟩ := cleanupDeleted_untouched fs
    ((dirSnapshot σ dir).map (fun r => r.file_path))
    (((fs.files.filter (fun f => strStartsWith f.1 dir)).foldl
      (processFile parse (existingLookup (dirSnapshot σ dir)) now)
      (σ, 0)).1)
  obtain ⟨g1, _, _, _, _, _⟩ := foldl_processFile_untouched parse
    (existingLookup (dirSnapshot σ dir)) now
    (fs.files.filter (fun f => strStartsWith f.1 dir)) (σ, 0)
  rw [h1, g1]

/-- C5 (amended): for a directory with no pre-existing scan record,
scanning it twice in a row with no filesystem change in between, the
second call with `force_rescan = False` within 3600 seconds of the record
written by the first returns 0 and inserts nothing (the state is returned
unchanged).  The no-prior-record hypothesis is needed: `scan_history`
accumulates rows and the skip check's `fetchone` reads the oldest record
for the directory, so only then is the record it consults the first
call's. -/
theorem scan_twice_returns_zero (parse : String → String → Option ParsedInfo)
    (fs : FS) (σ : DBState) (dir : String) (force1 : Bool) (now1 now2 : Int)
    (hdir : fs.dirs.contains dir = true)
    (hnone : σ.scan_history.find? (fun r => r.directory == dir) = none)
    (hlt : now2 - now1 < 3600) :
    scan_directory parse fs ((scan_directory parse fs σ dir force1 now1).1)
        dir false now2
      = ((scan_directory parse fs σ dir force1 now1).1, 0) := by
  have hns1 : skipCheck σ dir force1 now1 = false := by
    cases force1 <;> simp [skipCheck, hnone]
  rw [scan_directory_run parse fs σ dir force1 now1 hdir hns1]
  have hhist := scanBody_scan_history parse fs σ dir now1
  have hfind : ((scanBody parse fs σ dir now1).1).scan_history.find?
      (fun r => r.directory == dir)
      = some (ScanHistoryRow.mk
          (freshId (σ.scan_history.map (fun r => r.id))) dir now1) := by
    rw [hhist, find_append_of_none _ _ _ hnone]
    simp
  have hsk2 : skipCheck ((scanBody parse fs σ dir now1).1) dir false now2
      = true := by
    simp only [skipCheck, hfind]
    simpa using hlt
  exact scan_directory_skip parse fs _ dir false now2 hdir hsk2

/-- A parse function that never matches. -/
def parseNone : String → String → Option ParsedInfo := fun _ _ => none

/-- An empty directory `/a`. -/
def fsA : FS := FS.mk [] ["/a"]

/-- The state after scanning `/a` at time 100 and again at time 4000 (the
second scan runs because 4000 - 100 ≥ 3600, and appends a second
record). -/
def dbTwice : DBState :=
  (scan_directory parseNone fsA
    ((scan_directory parseNone fsA initState "/a" false 100).1)
    "/a" false 4000).1

/-- Counterexample to C5 as stated: after an earlier stale scan (t=100),
two successive scans at t=4000 and t=4100 with no filesystem change leave
the claim false — although the second call runs only 100 seconds after
the record the first call of the pair wrote, the skip check consults the
oldest record (t=100), does not fire, and the call re-runs the body and
appends a third `scan_history` row instead of leaving the state
unchanged. -/
theorem scan_twice_skip_counterexample :
    (4100 : Int) - 4000 < 3600
    ∧ dbTwice.scan_history.map (fun r => (r.directory, r.last_scan))
        = [("/a", 100), ("/a", 4000)]
    ∧ skipCheck dbTwice "/a" false 4100 = false
    ∧ ((scan_directory parseNone fsA dbTwice "/a" false 4100).1
        ).scan_history.map (fun r => (r.directory, r.last_scan))
        = [("/a", 100), ("/a", 4000), ("/a", 4100)] := by
  refine ⟨by decide, by decide, by decide, by decide⟩

/-- Witness for `scan_twice_returns_zero` on a concrete directory. -/
theorem scan_twice_returns_zero_witness :
    scan_directory (fun _ _ => none) (FS.mk [] ["/a"])
        ((scan_directory (fun _ _ => none) (FS.mk [] ["/a"]) initState "/a"
          false 100).1) "/a" false 200
      = ((scan_directory (fun _ _ => none) (FS.mk [] ["/a"]) initState "/a"
          false 100).1, 0) :=
  scan_twice_returns_zero (fun _ _ => none) (FS.mk [] ["/a"]) initState "/a"
    false 100 200 (by decide) (by decide) (by decide)

/-- C6 (amended): during `scan_directory`, a previously indexed file whose
on-disk mtime is less than or equal to the stored `last_modified` is left
untouched — the code skips on `file_mtime <= db_mtime` — while a strictly
greater mtime deletes the old row and re-inserts the file as new when the
filename parses (and leaves it deleted when it does not). -/
theorem scan_mtime_behaviour (parse : String → String → Option ParsedInfo)
    (fs : FS) (σ : DBState) (dir p : String) (mNew : Int)
    (r : EpisodeFileRow) (now : Int)
    (hfs : fs.files = [(p, mNew)]) (hdir : fs.dirs.contains dir = true)
    (hpre : strStartsWith p dir = true) (hrow : σ.episode_files = [r])
    (hpath : r.file_path = p) :
    (mNew ≤ r.last_modified →
      ((scan_directory parse fs σ dir true now).1).episode_files = [r])
    ∧ (mNew > r.last_modified →
      ((scan_directory parse fs σ dir true now).1).episode_files
        = match parse (baseName p) p with
          | some info =>
              [EpisodeFileRow.mk 1 info.title info.season info.episode
                info.language p (baseName p) mNew now]
          | none => []) := by
  have hsnap : dirSnapshot σ dir = [r] := by
    simp [dirSnapshot, hrow, hpath, hpre]
  have hwalk : fs.files.filter (fun f => strStartsWith f.1 dir) = [(p, mNew)] := by
    simp [hfs, hpre]
  have hex : existingLookup [r] p = some (r.id, r.last_modified) := by
    simp [existingLookup, hpath]
  have hcl : ∀ σ2, cleanupDeleted fs [p] σ2 = σ2 := by
    intro σ2
    simp [cleanupDeleted, cleanupStep, hfs]
  have hrun : scan_directory parse fs σ dir true now
      = scanBody parse fs σ dir now :=
    scan_directory_run parse fs σ dir true now hdir (by simp [skipCheck])
  constructor
  · intro hle
    rw [hrun]
    simp only [scanBody, hsnap, hwalk, List.map_cons, List.map_nil, hpath,
      List.foldl_cons, List.foldl_nil]
    have hpf : processFile parse (existingLookup [r]) now (σ, 0) (p, mNew)
        = (σ, 0) := by
      simp only [processFile, hex]
      rw [if_pos hle]
    rw [hpf, hcl]
    simp [addScanRecord, hrow]
  · intro hgt
    rw [hrun]
    simp only [scanBody, hsnap, hwalk, List.map_cons, List.map_nil, hpath,
      List.foldl_cons, List.foldl_nil]
    have hdel : deleteEFById σ r.id
        = { σ with episode_files := [] } := by
      simp only [deleteEFById, hrow]
      simp
    rcases hp : parse (baseName p) p with _ | info
    · have hpf : processFile parse (existingLookup [r]) now (σ, 0) (p, mNew)
          = ({ σ with episode_files := [] }, 0) := by
        simp only [processFile, hex]
        rw [if_neg (by omega)]
        simp only [hp, hdel]
      rw [hpf, hcl]
      simp [addScanRecord]
    · have hpf : processFile parse (existingLookup [r]) now (σ, 0) (p, mNew)
          = (insertEF { σ with episode_files := [] } info p (baseName p)
              mNew now, 1) := by
        simp only [processFile, hex]
        rw [if_neg (by omega)]
        simp only [hp, hdel]
      rw [hpf, hcl]
      simp [addScanRecord, insertEF, freshEFId, freshId]

/-- A parse function that always succeeds (used to exhibit scan behaviour
independently of the regex patterns). -/
def parseAll : String → String → Option ParsedInfo :=
  fun n _ => some (ParsedInfo.mk n 1 1 "German Dub")

/-- Indexed row whose stored mtime is 100. -/
def rowC : EpisodeFileRow :=
  { id := 1, title := "T", season := 1, episode := 1,
    language := "German Dub", file_path := "/d/x", file_name := "x",
    last_modified := 100, indexed_at := 0 }

/-- Database holding only `rowC`. -/
def dbC : DBState := { initState with episode_files := [rowC] }

/-- Counterexample to C6 as stated: the file's on-disk mtime (50) differs
from the stored `last_modified` (100), yet `scan_directory` leaves the row
untouched — no delete, no re-insert — because the code only re-indexes on
`file_mtime > db_mtime`. -/
theorem scan_mtime_decrease_counterexample :
    (50 : Int) ≠ 100
    ∧ ((scan_directory parseAll (FS.mk [("/d/x", 50)] ["/d"]) dbC "/d" true
        1000).1).episode_files = [rowC] := by
  constructor
  · decide
  · decide

/-- Witness for `scan_mtime_behaviour`: a strictly newer mtime re-indexes
the file. -/
theorem scan_mtime_behaviour_witness :
    ((scan_directory parseAll (FS.mk [("/d/x", 150)] ["/d"]) dbC "/d" true
        1000).1).episode_files
      = match parseAll (baseName "/d/x") "/d/x" with
        | some info =>
            [EpisodeFileRow.mk 1 info.title info.season info.episode
              info.language "/d/x" (baseName "/d/x") 150 1000]
        | none => [] :=
  (scan_mtime_behaviour parseAll (FS.mk [("/d/x", 150)] ["/d"]) dbC "/d"
    "/d/x" 150 rowC 1000 (by decide) (by decide) (by decide) (by decide)
    (by decide)).2 (by decide)

/-- `EpisodeDatabase.is_currently_indexing`: returns the `is_indexing`
attribute. -/
def is_currently_indexing (σ : DBState) : Bool := σ.is_indexing

/-- One state-mutating `EpisodeDatabase` call. -/
inductive DBOp where
  | scan (fs : FS) (dir : String) (force : Bool) (now : Int)
  | saveAnime (slug title : String) (description thumbnail_url : Option String)
      (ttl now : Int)
  | saveSeason (aid : Nat) (sn : Int) (stitle : String) (ecount : Option Int)
      (now : Int)
  | saveEpisode (sid : Nat) (en : Int) (etitle url : Option String) (now : Int)
  | saveLanguage (eid : Nat) (language : String) (avail : Bool) (now : Int)
  | invalidate (slug : String)

/-- Run one operation against the database state. -/
def applyOp (parse : String → String → Option ParsedInfo) (σ : DBState) :
    DBOp → DBState
  | DBOp.scan fs dir force now => (scan_directory parse fs σ dir force now).1
  | DBOp.saveAnime slug title d th ttl now =>
      (save_anime_metadata σ slug title d th ttl now).1
  | DBOp.saveSeason aid sn st ec now =>
      (save_season_metadata σ aid sn st ec now).1
  | DBOp.saveEpisode sid en et url now =>
      (save_episode_metadata σ sid en et url now).1
  | DBOp.saveLanguage eid lang av now =>
      (save_language_availability σ eid lang av now).1
  | DBOp.invalidate slug => (invalidate_cache_for_anime σ slug).1

/-- No operation ever writes the `is_indexing` attribute —
`scan_directory` only sets a local variable. -/
theorem applyOp_is_indexing (parse : String → String → Option ParsedInfo)
    (σ : DBState) (op : DBOp) :
    (applyOp parse σ op).is_indexing = σ.is_indexing := by
  cases op with
  | scan fs dir force now =>
      show ((scan_directory parse fs σ dir force now).1).is_indexing
        = σ.is_indexing
      unfold scan_directory
      by_cases h1 : (!(fs.dirs.contains dir)) = true
      · rw [if_pos h1]
      · rw [if_neg h1]
        by_cases h2 : skipCheck σ dir force now = true
        · rw [if_pos h2]
        · rw [if_neg h2]
          simp only [scanBody, addScanRecord]
          obtain ⟨_, _, _, _, _, h6⟩ := cleanupDeleted_untouched fs
            ((dirSnapshot σ dir).map (fun r => r.file_path))
            (((fs.files.filter (fun f => strStartsWith f.1 dir)).foldl
              (processFile parse (existingLookup (dirSnapshot σ dir)) now)
              (σ, 0)).1)
          obtain ⟨_, _, _, _, _, g6⟩ := foldl_processFile_untouched parse
            (existingLookup (dirSnapshot σ dir)) now
            (fs.files.filter (fun f => strStartsWith f.1 dir)) (σ, 0)
          rw [h6, g6]
  | saveAnime slug title d th ttl now =>
      show ((save_anime_metadata σ slug title d th ttl now).1).is_indexing
        = σ.is_indexing
      rcases h : σ.anime_metadata.find? (fun r => r.slug == slug) with _ | row <;>
        simp [save_anime_metadata, h]
  | saveSeason aid sn st ec now =>
      show ((save_season_metadata σ aid sn st ec now).1).is_indexing
        = σ.is_indexing
      rcases h : σ.season_metadata.find?
          (fun r => r.anime_id == aid && r.season_number == sn) with _ | row <;>
        simp [save_season_metadata, h]
  | saveEpisode sid en et url now =>
      show ((save_episode_metadata σ sid en et url now).1).is_indexing
        = σ.is_indexing
      rcases h : σ.episode_metadata.find?
          (fun r => r.season_id == sid && r.episode_number == en) with _ | row <;>
        simp [save_episode_metadata, h]
  | saveLanguage eid lang av now =>
      show ((save_language_availability σ eid lang av now).1).is_indexing
        = σ.is_indexing
      rcases h : σ.language_availability.find?
          (fun r => r.episode_id == eid && r.language == lang) with _ | row <;>
        simp [save_language_availability, h]
  | invalidate slug =>
      show ((invalidate_cache_for_anime σ slug).1).is_indexing = σ.is_indexing
      rcases h : σ.anime_metadata.find? (fun r => r.slug == slug) with _ | row <;>
        simp [invalidate_cache_for_anime, h]

/-- C10: after any sequence of operations starting from `__init__` (which
sets `is_indexing = False`), `is_currently_indexing()` still reports
`False` — no method, `scan_directory` included, ever assigns the flag, so
an in-progress scan can never be observed through it. -/
theorem is_currently_indexing_always_false
    (parse : String → String → Option ParsedInfo) (ops : List DBOp) :
    is_currently_indexing (ops.foldl (applyOp parse) initState) = false := by
  suffices h : ∀ σ, (ops.foldl (applyOp parse) σ).is_indexing = σ.is_indexing by
    simpa [is_currently_indexing, initState] using h initState
  induction ops with
  | nil => intro σ; rfl
  | cons op ops ih =>
      intro σ
      rw [List.foldl_cons, ih (applyOp parse σ op),
        applyOp_is_indexing parse σ op]

/-- `head.rstrip('/')` on a char list. -/
def dropTrailingSlashes (l : List Char) : List Char :=
  (l.reverse.dropWhile (fun c => c == '/')).reverse

/-- `posixpath.dirname`: the text up to the last slash, with trailing
slashes stripped unless the result is all slashes. -/
def posixDirname (p : String) : String :=
  let l := p.data
  let head := l.take (rfindSlashSucc l)
  if head.isEmpty then ⟨head⟩
  else if head.all (fun c => c == '/') then ⟨head⟩
  else ⟨dropTrailingSlashes head⟩

/-- The `while parent and parent != directory` loop of
`get_last_scan_time`, with enough fuel for the strictly shrinking parent
chain. -/
def collectParents : Nat → String → List String → List String
  | 0, _, acc => acc
  | fuel + 1, directory, acc =>
      let parent := posixDirname directory
      if parent != "" && parent != directory then
        collectParents fuel parent (acc ++ [parent])
      else acc

/-- `potential_dirs` of `get_last_scan_time`: the directory and all its
ancestors. -/
def potential_dirs (directory : String) : List String :=
  collectParents (directory.length + 1) directory [directory]

/-- `EpisodeDatabase.get_last_scan_time`: `MAX(last_scan)` over the scan
records of the directory and its ancestors; `None` when there is no such
record or the maximum is 0 (Python falsiness of `row[0]`). -/
def get_last_scan_time (σ : DBState) (directory : String) : Option Int :=
  let dirs := potential_dirs directory
  let scans := (σ.scan_history.filter
    (fun r => dirs.contains r.directory)).map (fun r => r.last_scan)
  match scans with
  | [] => none
  | x :: xs =>
      let m := xs.foldl max x
      if m == 0 then none else some m

/-- `foldl max` computes a maximum: it is one of the elements and bounds
them all. -/
theorem foldl_max_spec (x : Int) (xs : List Int) :
    (xs.foldl max x = x ∨ xs.foldl max x ∈ xs)
    ∧ ∀ y ∈ x :: xs, y ≤ xs.foldl max x := by
  induction xs generalizing x with
  | nil => simp
  | cons a l ih =>
      constructor
      · rcases (ih (max x a)).1 with h | h
        · rw [List.foldl_cons, h]
          rcases max_choice x a with hm | hm
          · exact Or.inl hm
          · exact Or.inr (by rw [hm]; exact List.mem_cons_self a l)
        · exact Or.inr (List.mem_cons_of_mem a h)
      · intro y hy
        have hbound := (ih (max x a)).2
        have hmax : max x a ≤ l.foldl max (max x a) :=
          hbound (max x a) (List.mem_cons_self _ _)
        rcases List.mem_cons.mp hy with rfl | hy2
        · exact le_trans (le_max_left y a) hmax
        · rcases List.mem_cons.mp hy2 with rfl | hy3
          · exact le_trans (le_max_right x y) hmax
          · exact hbound y (List.mem_cons_of_mem _ hy3)

/-- `collectParents` only extends its accumulator. -/
theorem collectParents_extends (fuel : Nat) (d : String) (acc : List String) :
    ∃ l, collectParents fuel d acc = acc ++ l := by
  induction fuel generalizing d acc with
  | zero => exact ⟨[], by simp [collectParents]⟩
  | succ n ih =>
      unfold collectParents
      by_cases h : (posixDirname d != "" && posixDirname d != d) = true
      · rw [if_pos h]
        obtain ⟨l, hl⟩ := ih (posixDirname d) (acc ++ [posixDirname d])
        exact ⟨posixDirname d :: l, by rw [hl, List.append_assoc]; rfl⟩
      · rw [if_neg h]
        exact ⟨[], by simp⟩

/-- The directory itself is always considered. -/
theorem self_mem_potential_dirs (directory : String) :
    directory ∈ potential_dirs directory := by
  obtain ⟨l, hl⟩ := collectParents_extends (directory.length + 1) directory
    [directory]
  rw [potential_dirs, hl]
  exact List.mem_append_left l (List.mem_cons_self _ _)

/-- C9: `get_last_scan_time(directory)` considers the directory and every
ancestor obtained by repeatedly taking the parent path, and a returned
timestamp is the maximum `last_scan` over their scan records; in
particular, after `scan_directory` has run only on a parent directory, a
lookup on a descendant path returns that parent's timestamp. -/
theorem get_last_scan_time_spec (σ : DBState) (directory : String) :
    (∀ t, get_last_scan_time σ directory = some t →
      (∃ r ∈ σ.scan_history, r.directory ∈ potential_dirs directory
        ∧ r.last_scan = t)
      ∧ ∀ r ∈ σ.scan_history, r.directory ∈ potential_dirs directory →
          r.last_scan ≤ t)
    ∧ directory ∈ potential_dirs directory
    ∧ (∀ (parse : String → String → Option ParsedInfo) (fs : FS)
        (par : String) (force : Bool) (now : Int),
        σ.scan_history = [] →
        fs.dirs.contains par = true →
        par ∈ potential_dirs directory →
        0 < now →
        get_last_scan_time
          ((scan_directory parse fs σ par force now).1) directory
          = some now) := by
  refine ⟨?_, self_mem_potential_dirs directory, ?_⟩
  · intro t ht
    rcases hscans : (σ.scan_history.filter
        (fun r => (potential_dirs directory).contains r.directory)).map
        (fun r => r.last_scan) with _ | ⟨x, xs⟩
    · simp only [get_last_scan_time] at ht
      rw [hscans] at ht
      simp at ht
    · simp only [get_last_scan_time] at ht
      rw [hscans] at ht
      dsimp only at ht
      by_cases h0 : xs.foldl max x == 0
      · rw [if_pos h0] at ht
        cases ht
      · rw [if_neg h0] at ht
        have htm : xs.foldl max x = t := by simpa using ht
        obtain ⟨hmem, hub⟩ := foldl_max_spec x xs
        constructor
        · have hmx : t ∈ x :: xs := by
            rcases hmem with h | h
            · rw [← htm, h]; exact List.mem_cons_self _ _
            · rw [← htm]; exact List.mem_cons_of_mem _ h
          rw [← hscans] at hmx
          obtain ⟨r, hr, hrt⟩ := List.mem_map.mp hmx
          obtain ⟨hrmem, hrdir⟩ := List.mem_filter.mp hr
          exact ⟨r, hrmem, by simpa using hrdir, hrt⟩
        · intro r hr hdir
          have hrscan : r.last_scan ∈ x :: xs := by
            rw [← hscans]
            exact List.mem_map_of_mem _ (List.mem_filter.mpr
              ⟨hr, by simpa using hdir⟩)
          rw [← htm]
          exact hub r.last_scan hrscan
  · intro parse fs par force now hempty hdir hpar hpos
    have hns : skipCheck σ par force now = false := by
      cases force <;> simp [skipCheck, hempty]
    rw [scan_directory_run parse fs σ par force now hdir hns]
    have hhist := scanBody_scan_history parse fs σ par now
    rw [hempty] at hhist
    rw [get_last_scan_time, hhist]
    have hcont : (potential_dirs directory).contains par = true := by
      simpa using hpar
    simp only [List.nil_append, List.filter_cons, List.filter_nil, hcont,
      if_pos, List.map_cons, List.map_nil, List.foldl_nil]
    rw [if_neg (by simpa using (by omega : ¬(now = 0)))]

/-- Witness for `get_last_scan_time_spec`: scanning only `/a` makes a
lookup on `/a/b/c` return that scan's timestamp. -/
theorem get_last_scan_time_spec_witness :
    get_last_scan_time
        ((scan_directory (fun _ _ => none) (FS.mk [] ["/a"]) initState "/a"
          false 5).1) "/a/b/c"
      = some 5 :=
  (get_last_scan_time_spec initState "/a/b/c").2.2 (fun _ _ => none)
    (FS.mk [] ["/a"]) "/a" false 5 rfl (by decide) (by decide) (by decide)

/-- A column as declared in `create_tables`: whether `NOT NULL`, `UNIQUE`,
or `PRIMARY KEY` appears on its line. -/
structure TableColumn where
  name : String
  notNull : Bool
  unique : Bool
  primaryKey : Bool
deriving DecidableEq, Repr

/-- The `episode_files` column declarations from `create_tables`
(db.py lines 126-138).  `file_path TEXT NOT NULL` carries no `UNIQUE`
constraint; `idx_file_path` is a plain (non-unique) index. -/
def episode_files_columns : List TableColumn :=
  [{ name := "id", notNull := false, unique := false, primaryKey := true },
   { name := "title", notNull := true, unique := false, primaryKey := false },
   { name := "season", notNull := false, unique := false, primaryKey := false },
   { name := "episode", notNull := true, unique := false, primaryKey := false },
   { name := "language", notNull := false, unique := false, primaryKey := false },
   { name := "file_path", notNull := true, unique := false, primaryKey := false },
   { name := "file_name", notNull := true, unique := false, primaryKey := false },
   { name := "last_modified", notNull := true, unique := false, primaryKey := false },
   { name := "indexed_at", notNull := true, unique := false, primaryKey := false }]

/-- A foreign-key clause as declared in `create_tables`. -/
structure ForeignKeyDecl where
  table : String
  column : String
  refTable : String
  onDeleteCascade : Bool
deriving DecidableEq, Repr

/-- The metadata-hierarchy foreign keys declared in `create_tables`
(db.py lines 198-236): every one carries `ON DELETE CASCADE`. -/
def metadata_foreign_keys : List ForeignKeyDecl :=
  [{ table := "season_metadata", column := "anime_id",
     refTable := "anime_metadata", onDeleteCascade := true },
   { table := "episode_metadata", column := "season_id",
     refTable := "season_metadata", onDeleteCascade := true },
   { table := "language_availability", column := "episode_id",
     refTable := "episode_metadata", onDeleteCascade := true }]

/-- Whether the connections enforce foreign keys.
`ThreadSafeSQLite.get_connection` (db.py lines 46-57) calls
`sqlite3.connect` and sets only `row_factory`; it never executes
`PRAGMA foreign_keys = ON`, and SQLite leaves foreign-key enforcement OFF
by default, so the declared `ON DELETE CASCADE` actions never run. -/
def foreign_keys_enabled : Bool := false

/-- `DELETE FROM anime_metadata WHERE id = ?` under the connection's
foreign-key setting: with enforcement on, SQLite would run the declared
cascades down season → episode → language; with enforcement off (the
actual configuration) only the anime row is removed. -/
def delete_anime_metadata (σ : DBState) (aid : Nat) : DBState :=
  if foreign_keys_enabled then
    let deadSeasons := (σ.season_metadata.filter
      (fun s => s.anime_id == aid)).map (fun s => s.id)
    let deadEpisodes := (σ.episode_metadata.filter
      (fun e => deadSeasons.contains e.season_id)).map (fun e => e.id)
    { σ with
        anime_metadata := σ.anime_metadata.filter (fun a => a.id != aid)
        season_metadata := σ.season_metadata.filter
          (fun s => s.anime_id != aid)
        episode_metadata := σ.episode_metadata.filter
          (fun e => !(deadSeasons.contains e.season_id))
        language_availability := σ.language_availability.filter
          (fun l2 => !(deadEpisodes.contains l2.episode_id)) }
  else
    { σ with anime_metadata := σ.anime_metadata.filter (fun a => a.id != aid) }

/-- C3 exhibit: the schema declares `ON DELETE CASCADE` on every
metadata-hierarchy foreign key, but the connections never enable foreign
keys, so deleting an anime row built by `save_anime_metadata` /
`save_season_metadata` leaves its season row orphaned — the cascade the
claim asserts does not happen. -/
theorem cascade_not_enforced :
    foreign_keys_enabled = false
    ∧ metadata_foreign_keys.all (fun fk => fk.onDeleteCascade) = true
    ∧ (delete_anime_metadata
        ((save_season_metadata
          ((save_anime_metadata initState "ds" "Demon Slayer" none none
            86400 100).1) 1 1 "Staffel 1" none 100).1) 1).anime_metadata = []
    ∧ (delete_anime_metadata
        ((save_season_metadata
          ((save_anime_metadata initState "ds" "Demon Slayer" none none
            86400 100).1) 1 1 "Staffel 1" none 100).1) 1).season_metadata
      = [SeasonMetadataRow.mk 1 1 1 "Staffel 1" none 100] := by
  refine ⟨rfl, by decide, by decide, by decide⟩

/-- The `file_path` column of every `episode_files` row. -/
def efPaths (σ : DBState) : List String :=
  σ.episode_files.map (fun r => r.file_path)

/-- Fresh ids exceed every existing id. -/
theorem freshId_gt (ids : List Nat) (i : Nat) (h : i ∈ ids) :
    i < freshId ids := by
  induction ids with
  | nil => cases h
  | cons a l ih =>
      rcases List.mem_cons.mp h with rfl | h2
      · exact Nat.lt_succ_of_le (le_max_left _ _)
      · exact Nat.lt_of_lt_of_le (ih h2)
          (Nat.succ_le_succ (le_max_right _ _))

/-- In a list with pairwise distinct paths, `find?` on a member's path
returns exactly that member. -/
theorem find_of_nodup_paths (l : List EpisodeFileRow) (r : EpisodeFileRow)
    (hnd : (l.map (fun x => x.file_path)).Nodup) (hr : r ∈ l) :
    l.find? (fun x => x.file_path == r.file_path) = some r := by
  induction l with
  | nil => cases hr
  | cons a t ih =>
      rcases List.mem_cons.mp hr with rfl | hmem
      · rw [List.find?_cons_of_pos _ (by simp)]
      · simp only [List.map_cons, List.nodup_cons] at hnd
        have hfalse : (a.file_path == r.file_path) = false := by
          rw [← Bool.not_eq_true]
          intro he
          apply hnd.1
          have heq : a.file_path = r.file_path := by simpa using he
          rw [heq]
          exact List.mem_map_of_mem _ hmem
        simp only [List.find?_cons, hfalse]
        exact ih hnd.2 hmem

/-- Walking the files preserves pairwise-distinct `file_path`s, provided
the walked paths are distinct and the `existing_files` snapshot still
describes every row whose path will be visited. -/
theorem foldl_processFile_nodup
    (parse : String → String → Option ParsedInfo)
    (existing : String → Option (Nat × Int)) (now : Int) :
    ∀ (rem : List (String × Int)) (σ : DBState) (count : Nat),
      (efPaths σ).Nodup →
      (rem.map (fun e => e.1)).Nodup →
      (∀ e ∈ rem, ∀ row ∈ σ.episode_files, row.file_path = e.1 →
        existing e.1 = some (row.id, row.last_modified)) →
      (efPaths ((rem.foldl (processFile parse existing now)
        (σ, count)).1)).Nodup := by
  intro rem
  induction rem with
  | nil => intro σ count hnd _ _; exact hnd
  | cons e rem ih =>
      intro σ count hnd hrnd hcons
      rw [List.foldl_cons]
      have hrnd' : (rem.map (fun e2 => e2.1)).Nodup :=
        (List.nodup_cons.mp hrnd).2
      have henot : e.1 ∉ rem.map (fun e2 => e2.1) :=
        (List.nodup_cons.mp hrnd).1
      rcases hex : existing e.1 with _ | im
      · have hnopath : ∀ row ∈ σ.episode_files, row.file_path ≠ e.1 := by
          intro row hrow he
          have hc := hcons e (List.mem_cons_self _ _) row hrow he
          rw [hex] at hc
          cases hc
        rcases hp : parse (baseName e.1) e.1 with _ | info
        · have hstep : processFile parse existing now (σ, count) e
              = (σ, count) := by
            simp [processFile, hex, hp]
          rw [hstep]
          exact ih σ count hnd hrnd' (fun e2 he2 row hrow hpth =>
            hcons e2 (List.mem_cons_of_mem _ he2) row hrow hpth)
        · have hstep : processFile parse existing now (σ, count) e
              = (insertEF σ info e.1 (baseName e.1) e.2 now, count + 1) := by
            simp [processFile, hex, hp]
          rw [hstep]
          apply ih _ (count + 1) ?_ hrnd' ?_
          · have hmap : efPaths (insertEF σ info e.1 (baseName e.1) e.2 now)
                = efPaths σ ++ [e.1] := by
              simp [insertEF, efPaths]
            rw [hmap]
            refine List.Nodup.append hnd (List.nodup_singleton _) ?_
            intro a ha hb
            have hae : a = e.1 := by simpa using hb
            subst hae
            obtain ⟨row, hrow, hrp⟩ := List.mem_map.mp ha
            exact hnopath row hrow hrp
          · intro e2 he2 row hrow hpth
            have hrow2 : row ∈ σ.episode_files
                ∨ row = EpisodeFileRow.mk (freshEFId σ.episode_files)
                    info.title info.season info.episode info.language e.1
                    (baseName e.1) e.2 now := by
              simpa [insertEF] using hrow
            rcases hrow2 with h | h
            · exact hcons e2 (List.mem_cons_of_mem _ he2) row h hpth
            · exfalso
              apply henot
              subst h
              have he12 : e.1 = e2.1 := hpth
              rw [he12]
              exact List.mem_map_of_mem _ he2
      · by_cases hm : e.2 ≤ im.2
        · have hstep : processFile parse existing now (σ, count) e
              = (σ, count) := by
            simp [processFile, hex, hm]
          rw [hstep]
          exact ih σ count hnd hrnd' (fun e2 he2 row hrow hpth =>
            hcons e2 (List.mem_cons_of_mem _ he2) row hrow hpth)
        · have hdelnd : (efPaths (deleteEFById σ im.1)).Nodup := by
            refine List.Nodup.sublist ?_ hnd
            exact List.Sublist.map _ (List.filter_sublist _)
          have hdelmem : ∀ row ∈ (deleteEFById σ im.1).episode_files,
              row ∈ σ.episode_files ∧ row.id ≠ im.1 := by
            intro row hrow
            have h2 : row ∈ σ.episode_files ∧ (row.id != im.1) = true := by
              simpa [deleteEFById] using hrow
            exact ⟨h2.1, by simpa using h2.2⟩
          have hnopath2 : ∀ row ∈ (deleteEFById σ im.1).episode_files,
              row.file_path ≠ e.1 := by
            intro row hrow he
            have hc := hcons e (List.mem_cons_self _ _) row
              (hdelmem row hrow).1 he
            rw [hex] at hc
            have hpair : im = (row.id, row.last_modified) := by
              simpa using hc
            exact (hdelmem row hrow).2 (congrArg Prod.fst hpair.symm)
          rcases hp : parse (baseName e.1) e.1 with _ | info
          · have hstep : processFile parse existing now (σ, count) e
                = (deleteEFById σ im.1, count) := by
              simp [processFile, hex, hm, hp]
            rw [hstep]
            exact ih _ count hdelnd hrnd' (fun e2 he2 row hrow hpth =>
              hcons e2 (List.mem_cons_of_mem _ he2) row
                (hdelmem row hrow).1 hpth)
          · have hstep : processFile parse existing now (σ, count) e
                = (insertEF (deleteEFById σ im.1) info e.1 (baseName e.1)
                    e.2 now, count + 1) := by
              simp [processFile, hex, hm, hp]
            rw [hstep]
            apply ih _ (count + 1) ?_ hrnd' ?_
            · have hmap : efPaths (insertEF (deleteEFById σ im.1) info e.1
                  (baseName e.1) e.2 now)
                  = efPaths (deleteEFById σ im.1) ++ [e.1] := by
                simp [insertEF, efPaths]
              rw [hmap]
              refine List.Nodup.append hdelnd (List.nodup_singleton _) ?_
              intro a ha hb
              have hae : a = e.1 := by simpa using hb
              subst hae
              obtain ⟨row, hrow, hrp⟩ := List.mem_map.mp ha
              exact hnopath2 row hrow hrp
            · intro e2 he2 row hrow hpth
              have hrow2 : row ∈ (deleteEFById σ im.1).episode_files
                  ∨ row = EpisodeFileRow.mk
                      (freshEFId (deleteEFById σ im.1).episode_files)
                      info.title info.season info.episode info.language e.1
                      (baseName e.1) e.2 now := by
                simpa [insertEF] using hrow
              rcases hrow2 with h | h
              · exact hcons e2 (List.mem_cons_of_mem _ he2) row
                  (hdelmem row h).1 hpth
              · exfalso
                apply henot
                subst h
                have he12 : e.1 = e2.1 := hpth
                rw [he12]
                exact List.mem_map_of_mem _ he2

/-- The cleanup loop only deletes rows, hence preserves distinctness. -/
theorem cleanupDeleted_nodup (fs : FS) (ps : List String) (σ : DBState)
    (hnd : (efPaths σ).Nodup) :
    (efPaths (cleanupDeleted fs ps σ)).Nodup := by
  induction ps generalizing σ with
  | nil => exact hnd
  | cons p ps ih =>
      have hstep : (efPaths (cleanupStep fs σ p)).Nodup := by
        unfold cleanupStep
        by_cases hc : fs.files.any (fun f => f.1 == p) = true
        · rw [if_pos hc]; exact hnd
        · rw [if_neg hc]
          refine List.Nodup.sublist ?_ hnd
          exact List.Sublist.map _ (List.filter_sublist _)
      exact ih (cleanupStep fs σ p) hstep

/-- A scan body keeps `file_path` pairwise distinct whenever the walked
listing has distinct paths. -/
theorem scanBody_paths_nodup (parse : String → String → Option ParsedInfo)
    (fs : FS) (σ : DBState) (dir : String) (now : Int)
    (hfs : (fs.files.map (fun f => f.1)).Nodup)
    (hnd : (efPaths σ).Nodup) :
    (efPaths ((scanBody parse fs σ dir now).1)).Nodup := by
  have hsnapnd : ((dirSnapshot σ dir).map (fun r => r.file_path)).Nodup := by
    refine List.Nodup.sublist ?_ hnd
    exact List.Sublist.map _ (List.filter_sublist _)
  have hcons : ∀ e ∈ fs.files.filter (fun f => strStartsWith f.1 dir),
      ∀ row ∈ σ.episode_files, row.file_path = e.1 →
      existingLookup (dirSnapshot σ dir) e.1
        = some (row.id, row.last_modified) := by
    intro e he row hrow hpth
    have hpre : strStartsWith e.1 dir = true := (List.mem_filter.mp he).2
    have hrowsnap : row ∈ dirSnapshot σ dir :=
      List.mem_filter.mpr ⟨hrow, by rw [hpth]; exact hpre⟩
    unfold existingLookup
    rw [← hpth, find_of_nodup_paths (dirSnapshot σ dir) row hsnapnd hrowsnap]
    rfl
  have hwalknd : ((fs.files.filter (fun f => strStartsWith f.1 dir)).map
      (fun f => f.1)).Nodup := by
    refine List.Nodup.sublist ?_ hfs
    exact List.Sublist.map _ (List.filter_sublist _)
  have hfold := foldl_processFile_nodup parse
    (existingLookup (dirSnapshot σ dir)) now
    (fs.files.filter (fun f => strStartsWith f.1 dir)) σ 0 hnd hwalknd hcons
  simp only [scanBody]
  have haddsr : ∀ σ2 : DBState, efPaths (addScanRecord σ2 dir now)
      = efPaths σ2 := by
    intro σ2
    simp [addScanRecord, efPaths]
  rw [haddsr]
  exact cleanupDeleted_nodup fs _ _ hfold

/-- `scan_directory` keeps `file_path` pairwise distinct. -/
theorem scan_directory_paths_nodup
    (parse : String → String → Option ParsedInfo) (fs : FS) (σ : DBState)
    (dir : String) (force : Bool) (now : Int)
    (hfs : (fs.files.map (fun f => f.1)).Nodup)
    (hnd : (efPaths σ).Nodup) :
    (efPaths ((scan_directory parse fs σ dir force now).1)).Nodup := by
  unfold scan_directory
  by_cases h1 : (!(fs.dirs.contains dir)) = true
  · rw [if_pos h1]; exact hnd
  · rw [if_neg h1]
    by_cases h2 : skipCheck σ dir force now = true
    · rw [if_pos h2]; exact hnd
    · rw [if_neg h2]
      exact scanBody_paths_nodup parse fs σ dir now hfs hnd

/-- One `scan_directory` invocation: the filesystem it observed, the
directory, the force flag and the clock. -/
structure ScanOp where
  fs : FS
  dir : String
  force : Bool
  now : Int
deriving Repr

/-- Run a sequence of scans from the fresh database. -/
def runScans (parse : String → String → Option ParsedInfo)
    (ops : List ScanOp) : DBState :=
  ops.foldl
    (fun σ op => (scan_directory parse op.fs σ op.dir op.force op.now).1)
    initState

/-- Helper for `file_path_unique`: the invariant survives any suffix of
scans. -/
theorem runScans_nodup_aux (parse : String → String → Option ParsedInfo) :
    ∀ (ops : List ScanOp) (σ : DBState),
      (∀ op ∈ ops, (op.fs.files.map (fun f => f.1)).Nodup) →
      (efPaths σ).Nodup →
      (efPaths (ops.foldl
        (fun σ2 op => (scan_directory parse op.fs σ2 op.dir op.force
          op.now).1) σ)).Nodup := by
  intro ops
  induction ops with
  | nil => intro σ _ hnd; exact hnd
  | cons op ops ih =>
      intro σ hfs hnd
      rw [List.foldl_cons]
      exact ih _ (fun o ho => hfs o (List.mem_cons_of_mem _ ho))
        (scan_directory_paths_nodup parse op.fs σ op.dir op.force op.now
          (hfs op (List.mem_cons_self _ _)) hnd)

/-- C2 (amended): the schema does not declare `file_path` UNIQUE (the
column is only NOT NULL, with a non-unique index), yet the invariant holds
operationally: starting from the fresh database, no sequence of
`scan_directory` operations — each observing a filesystem listing with
pairwise distinct paths — ever produces two `episode_files` rows with the
same `file_path`. -/
theorem file_path_unique (parse : String → String → Option ParsedInfo)
    (ops : List ScanOp)
    (hfs : ∀ op ∈ ops, (op.fs.files.map (fun f => f.1)).Nodup) :
    ((episode_files_columns.find? (fun c => c.name == "file_path")).map
      (fun c => c.unique)) = some false
    ∧ (efPaths (runScans parse ops)).Nodup := by
  refine ⟨by decide, ?_⟩
  exact runScans_nodup_aux parse ops initState hfs (by simp [initState, efPaths])

/-- Counterexample to C2 as stated: the `episode_files` schema's
`file_path` column is declared `TEXT NOT NULL` with no UNIQUE constraint
(`idx_file_path` is a plain index), contradicting the claimed
`file_path UNIQUE` declaration. -/
theorem file_path_not_declared_unique :
    ((episode_files_columns.find? (fun c => c.name == "file_path")).map
      (fun c => c.unique)) = some false := by
  decide

/-- Witness for `file_path_unique`: two overlapping scans of concrete
directories keep paths distinct. -/
theorem file_path_unique_witness :
    ((episode_files_columns.find? (fun c => c.name == "file_path")).map
      (fun c => c.unique)) = some false
    ∧ (efPaths (runScans parseAll
        [ScanOp.mk (FS.mk [("/d/x", 50), ("/d/e/y", 60)] ["/d"]) "/d" true 100,
         ScanOp.mk (FS.mk [("/d/x", 50), ("/d/e/y", 60)] ["/d", "/d/e"])
           "/d/e" true 200])).Nodup :=
  file_path_unique parseAll
    [ScanOp.mk (FS.mk [("/d/x", 50), ("/d/e/y", 60)] ["/d"]) "/d" true 100,
     ScanOp.mk (FS.mk [("/d/x", 50), ("/d/e/y", 60)] ["/d", "/d/e"])
       "/d/e" true 200]
    (by decide)
